import Mathlib

/-!
# Verification of the lambda_s3 library (seantcanavan/GoLangS3Lambda)

A shallow embedding of `src/lib.go` (package `lambda_s3`) together with the
parts of the Go standard library and AWS SDK surface that the library's
behaviour depends on: `net/http.Header` / `net/textproto` canonical header
keys, `mime.ParseMediaType`, `mime/multipart.Reader.ReadForm` (Go 1.18
semantics, per `go.mod`), `path/filepath.Join`/`Clean`, and the S3
session/upload/download/delete calls, which are modelled as an abstract
environment plus an explicit trace of backend operations.

Go strings and byte slices are modelled as `List Nat` (byte sequences).
All inputs appearing in concrete theorems are ASCII.

Modelling notes (scope of the embedding, stated once here):
* CRLF-delimited multipart bodies are modelled; Go's adaptive acceptance of
  bare-LF boundary lines (`mr.nl` switching) is not, and no claim input uses
  bare-LF lines.
* `textproto.ReadMIMEHeader` continuation (folded) header lines and
  quoted-printable `Content-Transfer-Encoding` handling in `NextPart` are not
  modelled; no claim input uses them.
* RFC 2231 extended/continued media-type parameters (`key*=`) are not
  modelled; no claim input uses them.
* `bufio` buffer-size limits (4096-byte lines) are not modelled; concrete
  inputs stay far below them and error outcomes coincide.
-/

set_option maxRecDepth 100000

namespace LambdaS3

/-- Go strings and `[]byte` values are byte sequences. -/
abbrev GoStr := List Nat

/-- Bytes of an ASCII Lean string literal, used to write concrete inputs. -/
def bytes (s : String) : GoStr := s.data.map Char.toNat

/-- ASCII lower-casing of one byte (`A`-`Z` map to `a`-`z`). -/
def lowerByte (c : Nat) : Nat := if 65 ≤ c ∧ c ≤ 90 then c + 32 else c

/-- ASCII upper-casing of one byte (`a`-`z` map to `A`-`Z`). -/
def upperByte (c : Nat) : Nat := if 97 ≤ c ∧ c ≤ 122 then c - 32 else c

/-- ASCII lower-casing of a byte string (`strings.ToLower` on ASCII data). -/
def lowerStr (s : GoStr) : GoStr := s.map lowerByte

/-- `unicode.IsSpace` restricted to ASCII: TAB, LF, VT, FF, CR, SP. -/
def isSpaceByte (c : Nat) : Bool := (9 ≤ c && c ≤ 13) || c == 32

/-- `strings.TrimLeftFunc(v, unicode.IsSpace)` on ASCII byte strings. -/
def trimLeftSpace (s : GoStr) : GoStr := s.dropWhile isSpaceByte

/-- `strings.TrimSpace` on ASCII byte strings. -/
def trimSpace (s : GoStr) : GoStr :=
  ((s.dropWhile isSpaceByte).reverse.dropWhile isSpaceByte).reverse

/-- `net/textproto.validHeaderFieldByte`: the RFC 7230 token byte table. -/
def validHeaderFieldByte (c : Nat) : Bool :=
  (48 ≤ c && c ≤ 57) ||       -- 0-9
  (65 ≤ c && c ≤ 90) ||       -- A-Z
  (97 ≤ c && c ≤ 122) ||      -- a-z
  c == 33 ||                  -- !
  (35 ≤ c && c ≤ 39) ||       -- remaining specials
  c == 42 || c == 43 || c == 45 || c == 46 ||
  c == 94 || c == 95 || c == 96 || c == 124 || c == 126

/-- The per-byte canonicalization loop of `textproto.canonicalMIMEHeaderKey`:
upper-case a byte at the start or after a hyphen, lower-case it elsewhere. -/
def canonChars : Bool → GoStr → GoStr
  | _, [] => []
  | upper, c :: cs =>
    (if upper then upperByte c else lowerByte c) :: canonChars (c == 45) cs

/-- `textproto.CanonicalMIMEHeaderKey`: keys holding a byte outside the token
table are returned unchanged, otherwise they are canonicalized. -/
def canonicalMIMEHeaderKey (s : GoStr) : GoStr :=
  if s.all validHeaderFieldByte then canonChars true s else s

/-- `http.Header` built by `headers.Add` over the request's header pairs and
then queried with `headers.Get`: the first pair whose canonical key matches
the canonical query key, or the empty string.  The request headers are kept
as an association list; Go iterates the request's `map[string]string` in an
unspecified order, and `Get` observes only the first value stored under the
canonical key, which for pairwise distinct canonical keys is order-free. -/
def headerGet (hs : List (GoStr × GoStr)) (key : GoStr) : GoStr :=
  match hs.find? (fun p => canonicalMIMEHeaderKey p.1 == canonicalMIMEHeaderKey key) with
  | some p => p.2
  | none => []

/-- `mime.isTSpecial`: the RFC 1521 tspecial bytes. -/
def isTSpecialByte (c : Nat) : Bool :=
  c == 40 || c == 41 || c == 60 || c == 62 || c == 64 ||   -- ( ) < > @
  c == 44 || c == 59 || c == 58 || c == 92 || c == 34 ||   -- , ; : backslash quote
  c == 47 || c == 91 || c == 93 || c == 63 || c == 61      -- / [ ] ? =

/-- `mime.isTokenChar`: printable ASCII that is not a tspecial. -/
def isTokenByte (c : Nat) : Bool := 32 < c && c < 127 && !isTSpecialByte c

/-- `mime.consumeToken`: the longest token prefix and the remainder. -/
def consumeToken (v : GoStr) : GoStr × GoStr :=
  (v.takeWhile isTokenByte, v.dropWhile isTokenByte)

/-- The quoted-string scanner inside `mime.consumeValue`: bytes up to the
closing quote, un-escaping a backslash only before a tspecial byte, and
rejecting CR/LF and an unterminated string (returning the untouched input as
the failure signal, as the Go code does). -/
def consumeQuoted : GoStr → Option (GoStr × GoStr)
  | [] => none
  | 34 :: rest => some ([], rest)
  | 92 :: c :: rest =>
    if isTSpecialByte c then
      (consumeQuoted rest).map (fun p => (c :: p.1, p.2))
    else (consumeQuoted (c :: rest)).map (fun p => (92 :: p.1, p.2))
  | c :: rest =>
    if c == 13 || c == 10 then none
    else (consumeQuoted rest).map (fun p => (c :: p.1, p.2))

/-- `mime.consumeValue`: a token, or a double-quoted string. On a malformed
quoted string Go returns `("", v)` untouched; modelled by `none`. -/
def consumeValue (v : GoStr) : Option (GoStr × GoStr) :=
  match v with
  | [] => some ([], [])
  | c :: rest =>
    if c == 34 then consumeQuoted rest
    else some (consumeToken v)

/-- `mime.checkMediaTypeDisposition`: `token` or `token "/" token`, nothing
more. -/
def checkMediaTypeDisposition (s : GoStr) : Bool :=
  let (typ, rest) := consumeToken s
  if typ = [] then false
  else if rest = [] then true
  else match rest with
    | 47 :: rest1 =>
      let (subtype, rest2) := consumeToken rest1
      if subtype = [] then false else rest2 = []
    | _ => false

/-- `mime.consumeMediaParam`: `";" key "=" value` with optional surrounding
whitespace; `none` models Go's `("", "", v)` failure return. -/
def consumeMediaParam (v : GoStr) : Option (GoStr × GoStr × GoStr) :=
  let rest0 := trimLeftSpace v
  match rest0 with
  | 59 :: rest1 =>   -- ';'
    let rest2 := trimLeftSpace rest1
    let (param, rest3) := consumeToken rest2
    let param := lowerStr param
    if param = [] then none
    else
      let rest4 := trimLeftSpace rest3
      match rest4 with
      | 61 :: rest5 =>   -- '='
        let rest6 := trimLeftSpace rest5
        match consumeValue rest6 with
        | none => none
        | some (value, rest7) =>
          -- Go fails when the value is empty and nothing was consumed.
          if value = [] ∧ rest7 = rest6 then none else some (param, value, rest7)
      | _ => none
  | _ => none

/-- First value bound to a key in an association list; the empty string if
absent (Go map indexing with the zero value). -/
def paramGet (ps : List (GoStr × GoStr)) (key : GoStr) : GoStr :=
  match ps.find? (fun p => p.1 == key) with
  | some p => p.2
  | none => []

/-- The parameter loop of `mime.ParseMediaType`, with fuel bounded by the
input length (each successful iteration consumes at least the leading
semicolon, so the fuel never runs out on the lists it is called with). -/
def parseParamsLoop : Nat → GoStr → List (GoStr × GoStr) → Option (List (GoStr × GoStr))
  | 0, _, _ => none
  | fuel + 1, v, acc =>
    if v = [] then some acc
    else
      let v1 := trimLeftSpace v
      if v1 = [] then some acc
      else match consumeMediaParam v1 with
        | none =>
          -- Go: a bare trailing semicolon is tolerated, anything else fails.
          if trimSpace v1 = [59] then some acc else none
        | some (key, value, rest) =>
          match acc.find? (fun p => p.1 == key) with
          | some p => if p.2 = value then parseParamsLoop fuel rest acc else none
          | none => parseParamsLoop fuel rest (acc ++ [(key, value)])

/-- `mime.ParseMediaType` (RFC 2231 continuations not modelled): lower-cased,
space-trimmed media type before the first semicolon, then the parameter
list. `none` models every error return. -/
def parseMediaType (v : GoStr) : Option (GoStr × List (GoStr × GoStr)) :=
  let mediatype := trimSpace (lowerStr (v.takeWhile (fun c => c ≠ 59)))
  if checkMediaTypeDisposition mediatype then
    let rest := v.dropWhile (fun c => c ≠ 59)
    (parseParamsLoop (rest.length + 1) rest []).map (fun ps => (mediatype, ps))
  else none

/-- The error sentinels of `src/lib.go`, plus `sdkError` for the one place
(`Delete`) where the SDK's own error is passed through unwrapped. -/
inductive Err where
  | BoundaryValueMissing
  | ContentTypeHeaderMissing
  | DownloadingS3File
  | EmptyFileDownloaded
  | NewAWSSession
  | OpeningMultiPartFile
  | ParameterBucketEmpty
  | ParameterNameEmpty
  | ParameterRegionEmpty
  | ParsingMediaType
  | ReadingMultiPartFile
  | ReadingMultiPartForm
  | UploadingMultiPartFileToS3
  | sdkError
  deriving DecidableEq, Repr

deriving instance DecidableEq for Except

/-- Split a body into the lines `bufio.ReadSlice` returns: each line keeps
its terminating LF; a final line without LF models the read that reports
`io.EOF` together with its data. -/
def splitLinesAux : GoStr → GoStr → List GoStr
  | [], [] => []
  | [], acc => [acc.reverse]
  | c :: cs, acc =>
    if c == 10 then (acc.reverse ++ [10]) :: splitLinesAux cs []
    else splitLinesAux cs (c :: acc)

/-- All `ReadSlice('\n')` lines of a body. -/
def splitLines (s : GoStr) : List GoStr := splitLinesAux s []

/-- Whether a line carries its LF terminator (so the read was not the one
that hit `io.EOF`). -/
def endsWithLF (l : GoStr) : Bool := l.getLast? == some 10

/-- `skipLWSPChar`: drop leading spaces and tabs. -/
def skipLWSP (s : GoStr) : GoStr := s.dropWhile (fun c => c == 32 || c == 9)

/-- `Reader.isBoundaryDelimiterLine` with `nl = "\r\n"`: the line is
`--boundary`, optional linear whitespace, then CRLF. -/
def isBoundaryDelimiterLine (b l : GoStr) : Bool :=
  (bytes "--" ++ b).isPrefixOf l &&
    skipLWSP (l.drop (b.length + 2)) == [13, 10]

/-- `Reader.isFinalBoundary`: the line is `--boundary--`, optional linear
whitespace, then end of input or CRLF. -/
def isFinalBoundary (b l : GoStr) : Bool :=
  (bytes "--" ++ b ++ bytes "--").isPrefixOf l &&
    (skipLWSP (l.drop (b.length + 4)) == [] || skipLWSP (l.drop (b.length + 4)) == [13, 10])

/-- `multipart.matchAfterPrefix` folded with the `--boundary` prefix test:
whether a line is treated as a boundary separator by the part-content
scanner (prefix `--boundary` followed by end of input, space, tab, CR, LF,
or a double dash). -/
def boundaryMatch (b l : GoStr) : Bool :=
  (bytes "--" ++ b).isPrefixOf l &&
    (match l.drop (b.length + 2) with
     | [] => true
     | c :: rest =>
       c == 32 || c == 9 || c == 13 || c == 10 ||
         (c == 45 && (rest = [] || rest.head? == some 45)))

/-- One parsed MIME part: its canonicalized header list and its raw content
bytes. -/
structure PartM where
  headers : List (GoStr × GoStr)
  content : GoStr
  deriving DecidableEq, Repr

/-- `textproto.ReadMIMEHeader` over the line list, restricted to bodies
without folded (continuation) header lines: a line starting with space or
tab is rejected outright (Go rejects it on the first line and would fold it
into the previous value afterwards; no claim input folds headers).  Header
lines run up to a blank line; every line needs a colon and a key with no
trailing space; keys are canonicalized; an empty key skips its line.
Returns the headers and the remaining lines, `none` on malformed input or
end of input. -/
def parseHeaders : List GoStr → Option (List (GoStr × GoStr) × List GoStr)
  | [] => none
  | l :: rest =>
    if l = [13, 10] ∨ l = [10] then some ([], rest)
    else if !endsWithLF l then none
    else if l.head? == some 32 || l.head? == some 9 then none
    else
      let l1 := if [13, 10].isSuffixOf l then l.dropLast.dropLast else l.dropLast
      let key := l1.takeWhile (fun c => c ≠ 58)
      let rest1 := l1.dropWhile (fun c => c ≠ 58)
      match rest1 with
      | 58 :: after =>
        if key.getLast? = some 32 then none
        else
          let value := after.dropWhile (fun c => c == 32 || c == 9)
          if key = [] then parseHeaders rest
          else
            (parseHeaders rest).map
              (fun p => ((canonicalMIMEHeaderKey key, value) :: p.1, p.2))
      | _ => none

/-- The part-content scanner of `multipart.Part.Read`: content lines up to a
line the scanner recognises as a boundary, which must be preceded by CRLF
(or begin the content).  A recognised boundary line that is neither a
delimiter nor a final boundary makes the surrounding `NextPart` fail, and
running out of input inside a part is `io.ErrUnexpectedEOF`; both are
`none`.  Returns the content (with the separating CRLF stripped), whether
the terminator was the final boundary, and the remaining lines. -/
def parseContent (b : GoStr) : GoStr → List GoStr → Option (GoStr × Bool × List GoStr)
  | _, [] => none
  | acc, l :: rest =>
    if (acc = [] ∨ [13, 10].isSuffixOf acc) ∧ boundaryMatch b l then
      if isBoundaryDelimiterLine b l then
        some (acc.take (acc.length - 2), false, rest)
      else if isFinalBoundary b l then
        some (acc.take (acc.length - 2), true, rest)
      else none
    else parseContent b (acc ++ l) rest

/-- The `NextPart` loop from just after a boundary delimiter line: parse one
part's headers and content, then continue after each non-final delimiter.
The fuel is at least the number of remaining lines plus one, which bounds
the number of parts. -/
def parsePartsFrom (b : GoStr) : Nat → List GoStr → Option (List PartM)
  | 0, _ => none
  | fuel + 1, lines =>
    match parseHeaders lines with
    | none => none
    | some (hs, rest) =>
      match parseContent b [] rest with
      | none => none
      | some (content, final, rest1) =>
        if final then some [⟨hs, content⟩]
        else
          (parsePartsFrom b fuel rest1).map (fun ps => ⟨hs, content⟩ :: ps)

/-- The preamble scan of `Reader.NextPart`: skip lines before the first
boundary; a final boundary before any part yields an empty part list; end of
input that is not a final boundary is an error (`none`); a line read
together with `io.EOF` can only be a final boundary. -/
def readAllParts (b : GoStr) : List GoStr → Option (List PartM)
  | [] => none
  | l :: rest =>
    if !endsWithLF l then
      if isFinalBoundary b l then some [] else none
    else if isBoundaryDelimiterLine b l then parsePartsFrom b (rest.length + 1) rest
    else if isFinalBoundary b l then some []
    else readAllParts b rest

/-- `Part.parseContentDisposition`: parse the `Content-Disposition` header;
on a parse error the disposition is empty with no parameters. -/
def partDisposition (p : PartM) : GoStr × List (GoStr × GoStr) :=
  match parseMediaType (headerGet p.headers (bytes "Content-Disposition")) with
  | some d => d
  | none => ([], [])

/-- `Part.FormName`: the `name` parameter, provided the disposition is
`form-data`. -/
def formName (p : PartM) : GoStr :=
  let d := partDisposition p
  if d.1 = bytes "form-data" then paramGet d.2 (bytes "name") else []

/-- `path/filepath.Base` on Unix: strip trailing slashes, keep the last
element, with `"."` for the empty path and `"/"` for all-slash paths. -/
def filepathBase (p : GoStr) : GoStr :=
  if p = [] then [46]
  else
    let p1 := p.reverse.dropWhile (fun c => c == 47)
    if p1 = [] then [47]
    else (p1.takeWhile (fun c => c ≠ 47)).reverse

/-- `Part.FileName`: the `filename` parameter of the disposition, passed
through `filepath.Base` when non-empty. -/
def fileName (p : PartM) : GoStr :=
  let f := paramGet (partDisposition p).2 (bytes "filename")
  if f = [] then [] else filepathBase f

/-- One `*multipart.FileHeader` as produced by `ReadForm`: `memContent`
models the unexported `content` slice (`none` for the nil slice, which
`bytes.Buffer.Bytes` yields when the part was spilled to disk or held no
bytes), and `tmpfile` holds the bytes written to the temporary file when the
part exceeded `maxMemory`. -/
structure FileHeaderM where
  filename : GoStr
  headers : List (GoStr × GoStr)
  size : Int
  memContent : Option GoStr
  tmpfile : Option GoStr
  deriving DecidableEq, Repr

/-- The `multipart.Form` maps, as association lists in first-insertion key
order (the Go maps do not retain an order; only membership and the per-key
value lists are observable). -/
structure FormM where
  value : List (GoStr × List GoStr)
  file : List (GoStr × List FileHeaderM)
  deriving DecidableEq, Repr

/-- Append a value to the list bound to a key, inserting the key at the end
when absent (`form.File[name] = append(form.File[name], fh)`). -/
def appendAssoc {α : Type} (m : List (GoStr × List α)) (key : GoStr) (v : α) :
    List (GoStr × List α) :=
  match m with
  | [] => [(key, [v])]
  | e :: rest =>
    if e.1 = key then (e.1, e.2 ++ [v]) :: rest
    else e :: appendAssoc rest key v

/-- Association-list lookup (`m[k]` presence in the Go map). -/
def lookupAssoc {α : Type} (m : List (GoStr × α)) (key : GoStr) : Option α :=
  match m.find? (fun e => e.1 == key) with
  | some e => some e.2
  | none => none

/-- The file branch of `Reader.readForm` for one part: `io.CopyN(&b, p,
maxMemory+1)` decides between keeping the bytes in memory and spilling the
whole part to a temporary file; `b.Bytes()` is nil for an empty buffer. -/
def mkFileHeader (maxMemory : Int) (p : PartM) : FileHeaderM :=
  let len : Int := p.content.length
  let n : Int := min len (max 0 (maxMemory + 1))
  if n > maxMemory then
    { filename := fileName p, headers := p.headers, size := len,
      memContent := none, tmpfile := some p.content }
  else
    { filename := fileName p, headers := p.headers, size := len,
      memContent := if p.content = [] then none else some p.content,
      tmpfile := none }

/-- The part loop of `Reader.readForm` (Go 1.18): parts without a form name
are skipped; parts without a filename are form values charged against the
shared `maxValueBytes` budget, failing with `ErrMessageTooLarge` (`none`)
once it would go negative; file parts are stored via `mkFileHeader` and are
never a size failure. -/
def readFormFold (maxMemory : Int) :
    List PartM → Int → FormM → Option FormM
  | [], _, form => some form
  | p :: ps, maxValueBytes, form =>
    let name := formName p
    if name = [] then readFormFold maxMemory ps maxValueBytes form
    else if fileName p = [] then
      let len : Int := p.content.length
      let n : Int := min len (max 0 (maxValueBytes + 1))
      let maxValueBytes1 := maxValueBytes - n
      if maxValueBytes1 < 0 then none
      else readFormFold maxMemory ps maxValueBytes1
        { form with value := appendAssoc form.value name (p.content.take n.toNat) }
    else
      readFormFold maxMemory ps maxValueBytes
        { form with file := appendAssoc form.file name (mkFileHeader maxMemory p) }

/-- The initial `maxValueBytes` budget: `maxMemory + 10MB`, with Go's
overflow guard. -/
def initialMaxValueBytes (maxMemory : Int) : Int :=
  if maxMemory + 10485760 ≤ 0 then
    (if maxMemory < 0 then 0 else 9223372036854775807)
  else maxMemory + 10485760

/-- `multipart.Reader.ReadForm` over a body already split into lines: parse
every part, then fold them into the form. -/
def readForm (lines : List GoStr) (boundary : GoStr) (maxMemory : Int) :
    Option FormM :=
  match readAllParts boundary lines with
  | none => none
  | some parts => readFormFold maxMemory parts (initialMaxValueBytes maxMemory) ⟨[], []⟩

/-- The fields of `events.APIGatewayProxyRequest` that `GetHeaders` can
observe, plus the body-encoding flag central to the base64 contract. The
headers are the request's `map[string]string` as an association list. -/
structure APIGatewayProxyRequest where
  headers : List (GoStr × GoStr)
  body : GoStr
  isBase64Encoded : Bool
  deriving DecidableEq, Repr

/-- Steps 1-5 of `GetHeaders` (`src/lib.go:125-156`): content-type lookup,
media-type parse, boundary extraction, and `ReadForm`, with each failure
mapped to its sentinel. -/
def getHeadersForm (req : APIGatewayProxyRequest) (maxFileSizeBytes : Int) :
    Except Err FormM :=
  let contentType := headerGet req.headers (bytes "Content-Type")
  if contentType = [] then .error .ContentTypeHeaderMissing
  else
    match parseMediaType contentType with
    | none => .error .ParsingMediaType
    | some (_, params) =>
      let boundary := paramGet params (bytes "boundary")
      if boundary = [] then .error .BoundaryValueMissing
      else
        match readForm (splitLines req.body) boundary maxFileSizeBytes with
        | none => .error .ReadingMultiPartForm
        | some form => .ok form

/-- `GetHeaders` (`src/lib.go:125-165`).  The final loop ranges over the Go
map `form.File`, whose iteration order is unspecified; `iter` is that
iteration order, a permutation of the map's keys in any faithful run.  Each
visited key contributes `form.File[name][0]`, the first header stored under
the name. -/
def GetHeaders (iter : List GoStr) (req : APIGatewayProxyRequest)
    (maxFileSizeBytes : Int) : Except Err (List FileHeaderM) :=
  match getHeadersForm req maxFileSizeBytes with
  | .error e => .error e
  | .ok form =>
    .ok (iter.filterMap fun k => (lookupAssoc form.file k).bind List.head?)

/-- The stop position of the backtracking loop in `path.Clean`'s `..`
handling: from `w`, keep decrementing while `w > dotdot` and the byte at
index `w` is not a slash. -/
def btPos (out : List Nat) (dd : Nat) : Nat → Nat
  | 0 => 0
  | w + 1 =>
    if dd < w + 1 && out.getD (w + 1) 0 != 47 then btPos out dd w else w + 1

/-- The main loop of `path.Clean` (Unix), with the output buffer as a list,
`dd` the `dotdot` barrier, and fuel bounded by the remaining input (each
iteration consumes at least one byte). -/
def cleanLoop : Nat → GoStr → Bool → GoStr → Nat → GoStr
  | 0, _, _, out, _ => out
  | fuel + 1, path, rooted, out, dd =>
    match path with
    | [] => out
    | c :: rest =>
      if c = 47 then cleanLoop fuel rest rooted out dd
      else if c = 46 ∧ (rest = [] ∨ rest.head? = some 47) then
        cleanLoop fuel rest rooted out dd
      else if c = 46 ∧ rest.head? = some 46 ∧
          (rest.tail = [] ∨ rest.tail.head? = some 47) then
        let rest2 := rest.tail
        if dd < out.length then
          cleanLoop fuel rest2 rooted (out.take (btPos out dd (out.length - 1))) dd
        else if !rooted then
          let out1 := (if 0 < out.length then out ++ [47] else out) ++ [46, 46]
          cleanLoop fuel rest2 rooted out1 out1.length
        else cleanLoop fuel rest2 rooted out dd
      else
        let seg := path.takeWhile (fun x => x ≠ 47)
        let rem := path.dropWhile (fun x => x ≠ 47)
        let out1 := (if (rooted ∧ out.length ≠ 1) ∨ (¬rooted ∧ out.length ≠ 0)
                     then out ++ [47] else out) ++ seg
        cleanLoop fuel rem rooted out1 dd

/-- `path/filepath.Clean` on Unix paths. -/
def pathClean (path : GoStr) : GoStr :=
  if path = [] then [46]
  else
    let rooted := path.head? = some 47
    let out := cleanLoop (path.length + 1) (if rooted then path.tail else path)
      rooted (if rooted then [47] else []) (if rooted then 1 else 0)
    if out = [] then [46] else out

/-- `path/filepath.Join` on two elements: skip leading empty elements, join
with a slash, and `Clean` the result. -/
def filepathJoin (a b : GoStr) : GoStr :=
  if a ≠ [] then pathClean (a ++ 47 :: b)
  else if b ≠ [] then pathClean b
  else []

/-- One backend interaction of the storage functions; the trace of these is
returned next to each result so that "no backend call is attempted" is the
trace being empty. -/
inductive S3Op where
  | newSession (region : GoStr)
  | deleteObjects (bucket key : GoStr)
  | download (bucket key : GoStr)
  | upload (bucket key body : GoStr)
  deriving DecidableEq, Repr

/-- The environment the AWS SDK collaborators run in: whether a session can
be established, what a download yields (`none` is a transport error), and
whether delete and upload round trips succeed. -/
structure S3Env where
  sessionOk : GoStr → Bool
  downloadRes : GoStr → GoStr → GoStr → Option GoStr
  deleteOk : GoStr → GoStr → GoStr → Bool
  uploadOk : GoStr → GoStr → GoStr → Bool

/-- The `uploadOutput.Location` reported by `s3manager.Uploader` for the
reference backend: the virtual-hosted-style URL, exactly as the repository's
tests assert it (`lib_test.go:57-64` and `lib_test.go:220-227`). -/
def locationOf (region bucket key : GoStr) : GoStr :=
  bytes "https://" ++ bucket ++ bytes ".s3." ++ region ++ bytes ".amazonaws.com/" ++ key

/-- `Delete` (`src/lib.go:38-72`): validate the three parameters, create a
session, and hand one delete to the batcher, whose error is returned
unwrapped (`sdkError`). -/
def Delete (env : S3Env) (region bucket name : GoStr) :
    Except Err Unit × List S3Op :=
  if region = [] then (.error .ParameterRegionEmpty, [])
  else if bucket = [] then (.error .ParameterBucketEmpty, [])
  else if name = [] then (.error .ParameterNameEmpty, [])
  else if !env.sessionOk region then (.error .NewAWSSession, [.newSession region])
  else if env.deleteOk region bucket name then
    (.ok (), [.newSession region, .deleteObjects bucket name])
  else (.error .sdkError, [.newSession region, .deleteObjects bucket name])

/-- `Download` (`src/lib.go:78-121`): validate the three parameters, create
a session, download into a write-at buffer; a transport error is
`ErrDownloadingS3File` and zero downloaded bytes is
`ErrEmptyFileDownloaded`. -/
def Download (env : S3Env) (region bucket name : GoStr) :
    Except Err GoStr × List S3Op :=
  if region = [] then (.error .ParameterRegionEmpty, [])
  else if bucket = [] then (.error .ParameterBucketEmpty, [])
  else if name = [] then (.error .ParameterNameEmpty, [])
  else if !env.sessionOk region then (.error .NewAWSSession, [.newSession region])
  else
    match env.downloadRes region bucket name with
    | none => (.error .DownloadingS3File, [.newSession region, .download bucket name])
    | some fileBytes =>
      if fileBytes.length = 0 then
        (.error .EmptyFileDownloaded, [.newSession region, .download bucket name])
      else (.ok fileBytes, [.newSession region, .download bucket name])

/-- `multipart.FileHeader.Open`: a non-nil in-memory content slice opens as
an `io.SectionReader` over it; otherwise the temporary file is opened
(yielding the same bytes); a zero-value header has neither and fails. -/
def openFileHeader (fh : FileHeaderM) : Option GoStr :=
  match fh.memContent with
  | some c => some c
  | none => fh.tmpfile

/-- The `file.Read(fileContents)` call of `UploadHeader` with its nil
(zero-length) destination slice: an `io.SectionReader` at offset 0 reports
`io.EOF` when the section is empty and otherwise reads zero bytes with no
error; an `os.File` read of zero bytes never errors.  Returns whether the
read errored. -/
def readIntoNilBuffer (fh : FileHeaderM) : Bool :=
  match fh.memContent with
  | some c => c.isEmpty
  | none => false

/-- `UploadHeader` (`src/lib.go:174-221`): validate the parameters, open the
header, perform the nil-buffer read, create a session, and upload the
reader's remaining bytes; on success the result carries
`filepath.Join(bucket, name)` and the uploader's `Location`. -/
structure UploadRes where
  S3Path : GoStr
  S3URL : GoStr
  deriving DecidableEq, Repr

/-- The body of `UploadHeader`; see `UploadRes`. -/
def UploadHeader (env : S3Env) (fileHeader : FileHeaderM)
    (region bucket name : GoStr) : Except Err UploadRes × List S3Op :=
  if region = [] then (.error .ParameterRegionEmpty, [])
  else if bucket = [] then (.error .ParameterBucketEmpty, [])
  else if name = [] then (.error .ParameterNameEmpty, [])
  else
    match openFileHeader fileHeader with
    | none => (.error .OpeningMultiPartFile, [])
    | some file =>
      if readIntoNilBuffer fileHeader then (.error .ReadingMultiPartFile, [])
      else if !env.sessionOk region then (.error .NewAWSSession, [.newSession region])
      else if env.uploadOk region bucket name then
        (.ok { S3Path := filepathJoin bucket name,
               S3URL := locationOf region bucket name },
         [.newSession region, .upload bucket name file])
      else
        (.error .UploadingMultiPartFileToS3,
         [.newSession region, .upload bucket name file])

/-! ## Concrete inputs used by the claim theorems -/

/-- The `encoding/base64` standard alphabet. -/
def b64Alphabet : GoStr :=
  bytes "ABCDEFGHIJKLMNOPQRSTUVWXYZabcdefghijklmnopqrstuvwxyz0123456789+/"

/-- One output byte of the standard base64 encoding. -/
def b64Char (n : Nat) : Nat := b64Alphabet.getD n 65

/-- `base64.StdEncoding.EncodeToString`, as the repository's test harness
(`lib_test.go:279`) uses it to build the request bodies it sends to
`GetHeaders`. -/
def base64Encode : GoStr → GoStr
  | [] => []
  | [a] => [b64Char (a / 4), b64Char (a % 4 * 16), 61, 61]
  | [a, b] => [b64Char (a / 4), b64Char (a % 4 * 16 + b / 16), b64Char (b % 16 * 4), 61]
  | a :: b :: c :: rest =>
    [b64Char (a / 4), b64Char (a % 4 * 16 + b / 16),
     b64Char (b % 16 * 4 + c / 64), b64Char (c % 64)] ++ base64Encode rest

/-- A well-formed multipart body with one file field, shaped exactly like
the one `lib_test.go:generateUploadFileReq` writes (same boundary, field
name, CRLF framing; a short csv payload). -/
def sampleMultipartBody : GoStr :=
  bytes "-----SEAN_BOUNDARY_VALUE\r\nContent-Disposition: form-data; name=\"sample_file\"; filename=\"sample_file.csv\"\r\nContent-Type: application/octet-stream\r\n\r\na,b,c\r\n-----SEAN_BOUNDARY_VALUE--\r\n"

/-- The matching `Content-Type` header value. -/
def sampleContentType : GoStr :=
  bytes "multipart/form-data; boundary=---SEAN_BOUNDARY_VALUE"

/-- The request the repository's own test sends: the multipart body is
base64-encoded and the `IsBase64Encoded` flag is set
(`lib_test.go:277-281`). -/
def base64Req : APIGatewayProxyRequest :=
  { headers := [(bytes "Content-Type", sampleContentType)],
    body := base64Encode sampleMultipartBody,
    isBase64Encoded := true }

/-- The same request with the body left as raw multipart bytes. -/
def rawReq : APIGatewayProxyRequest :=
  { headers := [(bytes "Content-Type", sampleContentType)],
    body := sampleMultipartBody,
    isBase64Encoded := false }

/-! ## C1 -/

/-- C1: the claim says `GetHeaders` base64-decodes the body when the
request's `IsBase64Encoded` flag is set (failing with an
`InvalidBodyEncoding` kind on malformed base64).  The code never consults
the flag and has no such error kind: feeding it the repository's own test
request — a perfectly valid multipart body, base64-encoded, flag set —
makes the multipart reader fail on the undecoded base64 text and
`GetHeaders` returns `ErrReadingMultiPartForm`, while the identical body
with the flag cleared behaves identically and the raw body succeeds. -/
theorem c1_base64_flagged_body_fails_undecoded :
    GetHeaders [] base64Req 50000000 = .error .ReadingMultiPartForm ∧
    GetHeaders [] { base64Req with isBase64Encoded := false } 50000000 =
      .error .ReadingMultiPartForm ∧
    GetHeaders [bytes "sample_file"] rawReq 50000000 ≠
      .error .ReadingMultiPartForm := by
  refine ⟨by decide, by decide, by decide⟩

/-! ## C2 -/

/-- A multipart body holding a single six-byte file part. -/
def oversizedBody : GoStr :=
  bytes "--B\r\nContent-Disposition: form-data; name=\"f1\"; filename=\"six.txt\"\r\n\r\nsixbys\r\n--B--\r\n"

/-- The request carrying `oversizedBody`. -/
def oversizedReq : APIGatewayProxyRequest :=
  { headers := [(bytes "Content-Type", bytes "multipart/form-data; boundary=B")],
    body := oversizedBody,
    isBase64Encoded := false }

/-- C2: the claim says a decoded size above `maxBytes` fails with a
payload-too-large kind and that no more than `maxBytes` of content is
accumulated.  With `maxFileSizeBytes = 3`, the six-byte file part does not
fail at all: Go's `ReadForm` treats the argument as a memory ceiling and
spills the whole oversized part to a temporary file (`memContent = none`,
`tmpfile` holding all six bytes), and `GetHeaders` succeeds. -/
theorem c2_oversized_file_part_spills_and_succeeds :
    GetHeaders [bytes "f1"] oversizedReq 3 =
      .ok [{ filename := bytes "six.txt",
             headers := [(bytes "Content-Disposition",
                          bytes "form-data; name=\"f1\"; filename=\"six.txt\"")],
             size := 6,
             memContent := none,
             tmpfile := some (bytes "sixbys") }] ∧
    (3 : Int) < 6 := by
  refine ⟨by decide, by decide⟩

/-! ## C7 -/

/-- An environment in which every backend interaction succeeds. -/
def trivEnv : S3Env :=
  { sessionOk := fun _ => true,
    downloadRes := fun _ _ _ => some (bytes "x"),
    deleteOk := fun _ _ _ => true,
    uploadOk := fun _ _ _ => true }

/-- A small openable in-memory file header. -/
def sampleFH : FileHeaderM :=
  { filename := bytes "a.txt", headers := [], size := 1,
    memContent := some (bytes "x"), tmpfile := none }

/-- C7: an empty region, bucket, or key on `Delete`, `Download`, or
`UploadHeader` fails with the matching parameter sentinel, and the trace of
backend operations is empty — no session is created and no network call is
attempted, so the backend is untouched. -/
theorem c7_empty_parameters_fail_without_backend_call (env : S3Env)
    (region bucket name : GoStr) (fh : FileHeaderM) :
    (region = [] →
      Delete env region bucket name = (.error .ParameterRegionEmpty, []) ∧
      Download env region bucket name = (.error .ParameterRegionEmpty, []) ∧
      UploadHeader env fh region bucket name = (.error .ParameterRegionEmpty, [])) ∧
    (region ≠ [] → bucket = [] →
      Delete env region bucket name = (.error .ParameterBucketEmpty, []) ∧
      Download env region bucket name = (.error .ParameterBucketEmpty, []) ∧
      UploadHeader env fh region bucket name = (.error .ParameterBucketEmpty, [])) ∧
    (region ≠ [] → bucket ≠ [] → name = [] →
      Delete env region bucket name = (.error .ParameterNameEmpty, []) ∧
      Download env region bucket name = (.error .ParameterNameEmpty, []) ∧
      UploadHeader env fh region bucket name = (.error .ParameterNameEmpty, [])) := by
  refine ⟨fun h1 => ?_, fun h1 h2 => ?_, fun h1 h2 h3 => ?_⟩ <;>
    refine ⟨?_, ?_, ?_⟩ <;>
    simp [Delete, Download, UploadHeader, *]

/-- Witness for C7 at concrete inputs. -/
theorem c7_empty_parameters_fail_without_backend_call_witness :
    Delete trivEnv [] (bytes "b") (bytes "k") = (.error .ParameterRegionEmpty, []) ∧
    Download trivEnv (bytes "r") [] (bytes "k") = (.error .ParameterBucketEmpty, []) ∧
    UploadHeader trivEnv sampleFH (bytes "r") (bytes "b") [] =
      (.error .ParameterNameEmpty, []) := by
  refine ⟨((c7_empty_parameters_fail_without_backend_call trivEnv [] (bytes "b")
      (bytes "k") sampleFH).1 rfl).1,
    ((c7_empty_parameters_fail_without_backend_call trivEnv (bytes "r") []
      (bytes "k") sampleFH).2.1 (by decide) rfl).2.1,
    ((c7_empty_parameters_fail_without_backend_call trivEnv (bytes "r") (bytes "b")
      [] sampleFH).2.2 (by decide) (by decide) rfl).2.2⟩

/-! ## C9 -/

/-- C9: a download that reaches the backend and receives zero bytes fails
with `ErrEmptyFileDownloaded`, and consequently every successful `Download`
returns a non-empty byte slice. -/
theorem c9_download_empty_object_fails (env : S3Env)
    (region bucket name bs : GoStr) (tr : List S3Op) :
    (Download env region bucket name = (.ok bs, tr) → bs ≠ []) ∧
    (region ≠ [] → bucket ≠ [] → name ≠ [] → env.sessionOk region = true →
      env.downloadRes region bucket name = some [] →
      Download env region bucket name =
        (.error .EmptyFileDownloaded, [.newSession region, .download bucket name])) := by
  constructor
  · intro h
    unfold Download at h
    split at h
    · simp at h
    split at h
    · simp at h
    split at h
    · simp at h
    split at h
    · simp at h
    split at h
    · simp at h
    next fileBytes hres =>
      split at h
      · simp at h
      next hlen =>
        simp only [Prod.mk.injEq, Except.ok.injEq] at h
        intro hnil
        exact hlen (by rw [h.1, hnil]; rfl)
  · intro h1 h2 h3 h4 h5
    simp [Download, h1, h2, h3, h4, h5]

/-- Witness for C9 at concrete inputs. -/
theorem c9_download_empty_object_fails_witness :
    Download { trivEnv with downloadRes := fun _ _ _ => some [] }
      (bytes "r") (bytes "b") (bytes "k") =
      (.error .EmptyFileDownloaded,
       [.newSession (bytes "r"), .download (bytes "b") (bytes "k")]) := by
  exact (c9_download_empty_object_fails _ (bytes "r") (bytes "b") (bytes "k") [] []).2
    (by decide) (by decide) (by decide) rfl rfl

/-! ## C10 -/

/-- C10: the read into `fileContents` uses a nil destination buffer, so for
every file part with non-empty content that opens successfully — whether
the content is the in-memory slice (`io.SectionReader`) or lives in the
temporary file `ReadForm` spilled it to (`os.File`) — the read consumes
zero bytes and cannot fail — `ErrReadingMultiPartFile` is unreachable — and
any body handed to the uploader is the part's full content, read from the
start of the reader. -/
theorem c10_nil_buffer_read_cannot_fail (env : S3Env) (fh : FileHeaderM)
    (region bucket name c : GoStr)
    (hopen : openFileHeader fh = some c) (hne : c ≠ []) :
    (UploadHeader env fh region bucket name).1 ≠ .error .ReadingMultiPartFile ∧
    (∀ bk ky body, S3Op.upload bk ky body ∈ (UploadHeader env fh region bucket name).2 →
      body = c) := by
  have hread : readIntoNilBuffer fh = false := by
    unfold readIntoNilBuffer
    cases hmc : fh.memContent with
    | none => rfl
    | some c0 =>
      have hc : c0 = c := by
        unfold openFileHeader at hopen
        rw [hmc] at hopen
        exact Option.some.inj hopen
      subst hc
      cases c0 with
      | nil => exact absurd rfl hne
      | cons x xs => rfl
  unfold UploadHeader
  rw [hopen, hread]
  split
  · exact ⟨by simp, by simp⟩
  split
  · exact ⟨by simp, by simp⟩
  split
  · exact ⟨by simp, by simp⟩
  simp only [Bool.false_eq_true, if_false]
  split
  · exact ⟨by simp, by simp⟩
  split <;>
    exact ⟨by simp, by intro bk ky body hmem; simp at hmem; exact hmem.2.2⟩

/-- A header whose content was spilled to a temporary file by `ReadForm`
(nil in-memory slice, bytes on disk). -/
def spilledFH : FileHeaderM :=
  { filename := bytes "big.txt", headers := [], size := 2,
    memContent := none, tmpfile := some (bytes "zz") }

/-- Witness for C10 at concrete inputs: one in-memory header and one
tmpfile-backed header. -/
theorem c10_nil_buffer_read_cannot_fail_witness :
    ((UploadHeader trivEnv sampleFH (bytes "r") (bytes "b") (bytes "k")).1 ≠
        .error .ReadingMultiPartFile ∧
      (∀ bk ky body,
        S3Op.upload bk ky body ∈
            (UploadHeader trivEnv sampleFH (bytes "r") (bytes "b") (bytes "k")).2 →
        body = bytes "x")) ∧
    ((UploadHeader trivEnv spilledFH (bytes "r") (bytes "b") (bytes "k")).1 ≠
        .error .ReadingMultiPartFile ∧
      (∀ bk ky body,
        S3Op.upload bk ky body ∈
            (UploadHeader trivEnv spilledFH (bytes "r") (bytes "b") (bytes "k")).2 →
        body = bytes "zz")) := by
  exact ⟨c10_nil_buffer_read_cannot_fail trivEnv sampleFH (bytes "r") (bytes "b")
      (bytes "k") (bytes "x") (by decide) (by decide),
    c10_nil_buffer_read_cannot_fail trivEnv spilledFH (bytes "r") (bytes "b")
      (bytes "k") (bytes "zz") (by decide) (by decide)⟩

/-! ## C8 -/

/-- C8 counterexample: uploading with bucket `b` and key `./k` succeeds, but
the returned path is `filepath.Join`'s cleaned `b/k`, not the concatenation
`b + "/" + ./k` the claim promises (the URL component does match the
virtual-hosted form). -/
theorem c8_counterexample_join_cleans_the_path :
    UploadHeader trivEnv sampleFH (bytes "r") (bytes "b") (bytes "./k") =
      (.ok { S3Path := bytes "b/k",
             S3URL := bytes "https://b.s3.r.amazonaws.com/./k" },
       [.newSession (bytes "r"), .upload (bytes "b") (bytes "./k") (bytes "x")]) ∧
    bytes "b/k" ≠ bytes "b" ++ 47 :: bytes "./k" := by
  refine ⟨by decide, by decide⟩

/-- C8 as amended: a successful `UploadHeader` returns `S3Path =
filepath.Join(bucket, name)` — which equals `bucket + "/" + name` whenever
that concatenation is already a clean path — and `S3URL` equal to the
backend's virtual-hosted-style URL. -/
theorem c8_amended_upload_result_fields (env : S3Env) (fh : FileHeaderM)
    (region bucket name : GoStr) (res : UploadRes) (tr : List S3Op)
    (h : UploadHeader env fh region bucket name = (.ok res, tr)) :
    res.S3Path = filepathJoin bucket name ∧
    res.S3URL = locationOf region bucket name ∧
    (pathClean (bucket ++ 47 :: name) = bucket ++ 47 :: name →
      res.S3Path = bucket ++ 47 :: name) := by
  unfold UploadHeader at h
  split at h
  next => simp at h
  next hregion =>
    split at h
    next => simp at h
    next hbucket =>
      split at h
      next => simp at h
      next hname =>
        split at h
        next => simp at h
        next file hopen =>
          split at h
          next => simp at h
          next hread =>
            split at h
            next => simp at h
            next hsess =>
              split at h
              next hok =>
                simp only [Prod.mk.injEq, Except.ok.injEq] at h
                refine ⟨by rw [← h.1], by rw [← h.1], fun hclean => ?_⟩
                rw [← h.1]
                show filepathJoin bucket name = _
                unfold filepathJoin
                rw [if_pos hbucket]
                exact hclean
              next hok => simp at h

/-- Witness for C8 as amended, at a clean concrete path. -/
theorem c8_amended_upload_result_fields_witness :
    bytes "b/k" = filepathJoin (bytes "b") (bytes "k") ∧
    bytes "https://b.s3.r.amazonaws.com/k" = locationOf (bytes "r") (bytes "b") (bytes "k") ∧
    (pathClean (bytes "b" ++ 47 :: bytes "k") = bytes "b" ++ 47 :: bytes "k" →
      bytes "b/k" = bytes "b" ++ 47 :: bytes "k") := by
  exact c8_amended_upload_result_fields trivEnv sampleFH (bytes "r") (bytes "b")
    (bytes "k")
    { S3Path := bytes "b/k", S3URL := bytes "https://b.s3.r.amazonaws.com/k" }
    [.newSession (bytes "r"), .upload (bytes "b") (bytes "k") (bytes "x")]
    (by decide)

/-! ## C3 -/

/-- C3: missing (or empty) content-type is exactly
`ErrContentTypeHeaderMissing`; a present but unparseable content-type is
exactly `ErrParsingMediaType`; a parsed content-type with no (or empty)
`boundary` parameter is exactly `ErrBoundaryValueMissing`; and when all
three steps pass, the only remaining outcomes are success or the multipart
reader's `ErrReadingMultiPartForm` — steps 1-3 admit no other failure. -/
theorem c3_steps_one_to_three_error_taxonomy (iter : List GoStr)
    (req : APIGatewayProxyRequest) (m : Int) :
    (GetHeaders iter req m = .error .ContentTypeHeaderMissing ↔
      headerGet req.headers (bytes "Content-Type") = []) ∧
    (GetHeaders iter req m = .error .ParsingMediaType ↔
      headerGet req.headers (bytes "Content-Type") ≠ [] ∧
      parseMediaType (headerGet req.headers (bytes "Content-Type")) = none) ∧
    (GetHeaders iter req m = .error .BoundaryValueMissing ↔
      (headerGet req.headers (bytes "Content-Type") ≠ [] ∧
       ∃ mt ps, parseMediaType (headerGet req.headers (bytes "Content-Type")) = some (mt, ps) ∧
         paramGet ps (bytes "boundary") = [])) ∧
    (∀ mt ps, headerGet req.headers (bytes "Content-Type") ≠ [] →
      parseMediaType (headerGet req.headers (bytes "Content-Type")) = some (mt, ps) →
      paramGet ps (bytes "boundary") ≠ [] →
      (∃ fs, GetHeaders iter req m = .ok fs) ∨
        GetHeaders iter req m = .error .ReadingMultiPartForm) := by
  by_cases hct : headerGet req.headers (bytes "Content-Type") = []
  · simp [GetHeaders, getHeadersForm, hct]
  · rcases hpm : parseMediaType (headerGet req.headers (bytes "Content-Type")) with
      _ | ⟨mt0, ps0⟩
    · simp [GetHeaders, getHeadersForm, hct, hpm]
    · by_cases hb : paramGet ps0 (bytes "boundary") = []
      · simp [GetHeaders, getHeadersForm, hct, hpm, hb]
        exact ⟨mt0, ps0, ⟨rfl, rfl⟩, hb⟩
      · rcases hrf : readForm (splitLines req.body)
            (paramGet ps0 (bytes "boundary")) m with _ | form
        · simp [GetHeaders, getHeadersForm, hct, hpm, hb, hrf]
        · simp [GetHeaders, getHeadersForm, hct, hpm, hb, hrf]

/-- A request with an unparseable content-type (the repository's own test
input, `lib_test.go:136`). -/
def badMediaTypeReq : APIGatewayProxyRequest :=
  { headers := [(bytes "Content-Type", bytes ";;;;;;;;;")],
    body := [], isBase64Encoded := false }

/-- A request whose content-type parses but has no boundary parameter
(`lib_test.go:144`). -/
def noBoundaryReq : APIGatewayProxyRequest :=
  { headers := [(bytes "Content-Type", bytes "blah")],
    body := [], isBase64Encoded := false }

/-- Witness for C3 at the repository's own test inputs. -/
theorem c3_steps_one_to_three_error_taxonomy_witness :
    GetHeaders [] ⟨[], [], false⟩ 5 = .error .ContentTypeHeaderMissing ∧
    GetHeaders [] badMediaTypeReq 5 = .error .ParsingMediaType ∧
    GetHeaders [] noBoundaryReq 5 = .error .BoundaryValueMissing ∧
    ((∃ fs, GetHeaders [bytes "sample_file"] rawReq 50000000 = .ok fs) ∨
      GetHeaders [bytes "sample_file"] rawReq 50000000 = .error .ReadingMultiPartForm) := by
  refine ⟨(c3_steps_one_to_three_error_taxonomy [] ⟨[], [], false⟩ 5).1.mpr (by decide),
    (c3_steps_one_to_three_error_taxonomy [] badMediaTypeReq 5).2.1.mpr
      ⟨by decide, by decide⟩,
    (c3_steps_one_to_three_error_taxonomy [] noBoundaryReq 5).2.2.1.mpr
      ⟨by decide, bytes "blah", [], by decide, by decide⟩,
    (c3_steps_one_to_three_error_taxonomy [bytes "sample_file"] rawReq 50000000).2.2.2
      (bytes "multipart/form-data")
      [(bytes "boundary", bytes "---SEAN_BOUNDARY_VALUE")]
      (by decide) (by decide) (by decide)⟩

/-! ## C4 -/

/-- Two bytes with the same ASCII lower-casing are equal or an upper/lower
pair of the same letter. -/
theorem lowerByte_eq_cases {c1 c2 : Nat} (h : lowerByte c1 = lowerByte c2) :
    c1 = c2 ∨ (65 ≤ c1 ∧ c1 ≤ 90 ∧ c2 = c1 + 32) ∨
      (65 ≤ c2 ∧ c2 ≤ 90 ∧ c1 = c2 + 32) := by
  unfold lowerByte at h
  split at h <;> split at h <;> omega

/-- Upper-casing respects case-equivalence of bytes. -/
theorem upperByte_congr {c1 c2 : Nat} (h : lowerByte c1 = lowerByte c2) :
    upperByte c1 = upperByte c2 := by
  rcases lowerByte_eq_cases h with rfl | ⟨a, b, rfl⟩ | ⟨a, b, rfl⟩ <;>
    unfold upperByte <;> (try rfl) <;> split <;> split <;> omega

/-- Membership in the token-byte table respects case-equivalence. -/
theorem validHeaderFieldByte_congr {c1 c2 : Nat} (h : lowerByte c1 = lowerByte c2) :
    validHeaderFieldByte c1 = validHeaderFieldByte c2 := by
  rcases lowerByte_eq_cases h with rfl | ⟨a, b, rfl⟩ | ⟨a, b, rfl⟩
  · rfl
  · have h1 : validHeaderFieldByte c1 = true := by
      simp only [validHeaderFieldByte, Bool.or_eq_true, decide_eq_true_eq,
        Bool.and_eq_true, beq_iff_eq]
      omega
    have h2 : validHeaderFieldByte (c1 + 32) = true := by
      simp only [validHeaderFieldByte, Bool.or_eq_true, decide_eq_true_eq,
        Bool.and_eq_true, beq_iff_eq]
      omega
    rw [h1, h2]
  · have h1 : validHeaderFieldByte c2 = true := by
      simp only [validHeaderFieldByte, Bool.or_eq_true, decide_eq_true_eq,
        Bool.and_eq_true, beq_iff_eq]
      omega
    have h2 : validHeaderFieldByte (c2 + 32) = true := by
      simp only [validHeaderFieldByte, Bool.or_eq_true, decide_eq_true_eq,
        Bool.and_eq_true, beq_iff_eq]
      omega
    rw [h1, h2]

/-- Being the hyphen respects case-equivalence. -/
theorem dashByte_congr {c1 c2 : Nat} (h : lowerByte c1 = lowerByte c2) :
    (c1 == 45) = (c2 == 45) := by
  rcases lowerByte_eq_cases h with rfl | ⟨a, b, rfl⟩ | ⟨a, b, rfl⟩
  · rfl
  · have e1 : (c1 == 45) = false := by simp; omega
    have e2 : (c1 + 32 == 45) = false := by simp; omega
    rw [e1, e2]
  · have e1 : (c2 == 45) = false := by simp; omega
    have e2 : (c2 + 32 == 45) = false := by simp; omega
    rw [e1, e2]

/-- The canonicalization loop respects case-equivalence of keys. -/
theorem canonChars_congr : ∀ (u : Bool) (s1 s2 : GoStr),
    s1.map lowerByte = s2.map lowerByte → canonChars u s1 = canonChars u s2 := by
  intro u s1
  induction s1 generalizing u with
  | nil =>
    intro s2 h
    cases s2 with
    | nil => rfl
    | cons c cs => simp at h
  | cons c cs ih =>
    intro s2 h
    cases s2 with
    | nil => simp at h
    | cons d ds =>
      simp only [List.map_cons, List.cons.injEq] at h
      cases u with
      | false =>
        have e1 : canonChars false (c :: cs) = lowerByte c :: canonChars (c == 45) cs := rfl
        have e2 : canonChars false (d :: ds) = lowerByte d :: canonChars (d == 45) ds := rfl
        rw [e1, e2, h.1, dashByte_congr h.1, ih (d == 45) ds h.2]
      | true =>
        have e1 : canonChars true (c :: cs) = upperByte c :: canonChars (c == 45) cs := rfl
        have e2 : canonChars true (d :: ds) = upperByte d :: canonChars (d == 45) ds := rfl
        rw [e1, e2, upperByte_congr h.1, dashByte_congr h.1, ih (d == 45) ds h.2]

/-- Token-table validity of a whole key respects case-equivalence. -/
theorem allValid_congr : ∀ s1 s2 : GoStr,
    s1.map lowerByte = s2.map lowerByte →
    s1.all validHeaderFieldByte = s2.all validHeaderFieldByte := by
  intro s1
  induction s1 with
  | nil =>
    intro s2 h
    cases s2 with
    | nil => rfl
    | cons c cs => simp at h
  | cons c cs ih =>
    intro s2 h
    cases s2 with
    | nil => simp at h
    | cons d ds =>
      simp only [List.map_cons, List.cons.injEq] at h
      simp only [List.all_cons, validHeaderFieldByte_congr h.1, ih ds h.2]

/-- Matching against the canonical `Content-Type` key respects
case-equivalence of the stored header name: canonicalization maps
case-equivalent valid keys to the same key, and a key with a byte outside
the token table is left unchanged but can then never equal
`Content-Type`. -/
theorem contentTypeMatch_congr (s1 s2 : GoStr)
    (h : s1.map lowerByte = s2.map lowerByte) :
    (canonicalMIMEHeaderKey s1 == canonicalMIMEHeaderKey (bytes "Content-Type")) =
    (canonicalMIMEHeaderKey s2 == canonicalMIMEHeaderKey (bytes "Content-Type")) := by
  have hct : canonicalMIMEHeaderKey (bytes "Content-Type") = bytes "Content-Type" := by
    decide
  rw [hct]
  unfold canonicalMIMEHeaderKey
  rw [allValid_congr s1 s2 h]
  by_cases hv : s2.all validHeaderFieldByte = true
  · rw [if_pos hv, if_pos hv, canonChars_congr true s1 s2 h]
  · rw [if_neg hv, if_neg hv]
    have f1 : (s1 == bytes "Content-Type") = false := by
      apply beq_eq_false_iff_ne.mpr
      intro he
      apply hv
      rw [← allValid_congr s1 s2 h, he]
      decide
    have f2 : (s2 == bytes "Content-Type") = false := by
      apply beq_eq_false_iff_ne.mpr
      intro he
      apply hv
      rw [he]
      decide
    rw [f1, f2]

/-- The relation between two header lists that differ only in the casing of
their names. -/
def HeadersCaseEquiv (h1 h2 : List (GoStr × GoStr)) : Prop :=
  List.Forall₂ (fun p q => p.1.map lowerByte = q.1.map lowerByte ∧ p.2 = q.2) h1 h2

/-- `headers.Get("Content-Type")` is unchanged under renaming header names
to case-equivalent ones. -/
theorem headerGet_contentType_congr (h1 h2 : List (GoStr × GoStr))
    (h : HeadersCaseEquiv h1 h2) :
    headerGet h1 (bytes "Content-Type") = headerGet h2 (bytes "Content-Type") := by
  induction h with
  | nil => rfl
  | @cons a b l1 l2 hab htail ih =>
    unfold headerGet
    simp only [List.find?_cons]
    rw [contentTypeMatch_congr a.1 b.1 hab.1]
    cases hcond : canonicalMIMEHeaderKey b.1 == canonicalMIMEHeaderKey (bytes "Content-Type") with
    | true => exact hab.2
    | false => exact ih

/-- C4: decoding two requests whose header lists differ only in the casing
of the header names (same values, same body, same flag) yields identical
results, for any map iteration order and size limit — the content-type
lookup is case-insensitive. -/
theorem c4_header_lookup_case_insensitive (iter : List GoStr)
    (h1 h2 : List (GoStr × GoStr)) (body : GoStr) (b64 : Bool) (m : Int)
    (h : HeadersCaseEquiv h1 h2) :
    GetHeaders iter ⟨h1, body, b64⟩ m = GetHeaders iter ⟨h2, body, b64⟩ m := by
  unfold GetHeaders getHeadersForm
  rw [headerGet_contentType_congr h1 h2 h]

/-- Witness for C4: the all-lowercase and all-uppercase spellings of
`content-type` decode the sample request identically. -/
theorem c4_header_lookup_case_insensitive_witness :
    HeadersCaseEquiv [(bytes "content-type", sampleContentType)]
      [(bytes "CONTENT-TYPE", sampleContentType)] ∧
    GetHeaders [bytes "sample_file"]
      ⟨[(bytes "content-type", sampleContentType)], sampleMultipartBody, false⟩ 50000000 =
    GetHeaders [bytes "sample_file"]
      ⟨[(bytes "CONTENT-TYPE", sampleContentType)], sampleMultipartBody, false⟩ 50000000 := by
  have hrel : HeadersCaseEquiv [(bytes "content-type", sampleContentType)]
      [(bytes "CONTENT-TYPE", sampleContentType)] :=
    List.Forall₂.cons ⟨by decide, rfl⟩ List.Forall₂.nil
  exact ⟨hrel, c4_header_lookup_case_insensitive [bytes "sample_file"] _ _
    sampleMultipartBody false 50000000 hrel⟩

/-! ## C5 and C6: the grouping performed by the `ReadForm` fold -/

/-- The file parts that `readFormFold` stores under field name `k`: a
non-empty form name, a non-empty file name, and the name `k` itself. -/
def isFilePartNamed (k : GoStr) (p : PartM) : Bool :=
  formName p != [] && fileName p != [] && formName p == k

/-- Looking a key up after `appendAssoc`: the appended key gains the value
at the end of its list, every other key is untouched. -/
theorem lookupAssoc_appendAssoc {α : Type} (m : List (GoStr × List α))
    (key : GoStr) (v : α) (k : GoStr) :
    lookupAssoc (appendAssoc m key v) k =
      if k = key then some ((lookupAssoc m k).getD [] ++ [v])
      else lookupAssoc m k := by
  induction m with
  | nil =>
    by_cases hk : k = key
    · subst hk
      simp [appendAssoc, lookupAssoc]
    · simp [appendAssoc, lookupAssoc, hk, Ne.symm hk]
  | cons e rest ih =>
    by_cases hek : e.1 = key
    · unfold appendAssoc
      rw [if_pos hek]
      by_cases hk : k = key
      · subst hk
        simp [lookupAssoc, List.find?_cons, hek.symm]
      · have hne : (e.1 == k) = false := by
          simp only [beq_eq_false_iff_ne]
          rw [hek]
          exact fun hc => hk hc.symm
        simp [lookupAssoc, List.find?_cons, hne, hk]
    · unfold appendAssoc
      rw [if_neg hek]
      by_cases hk : e.1 = k
      · have hbeq : (e.1 == k) = true := beq_iff_eq.mpr hk
        have hkkey : ¬(k = key) := fun hc => hek (hk.trans hc)
        simp [lookupAssoc, List.find?_cons, hbeq, hkkey]
      · have hbeq : (e.1 == k) = false := by
          simp only [beq_eq_false_iff_ne]
          exact hk
        simp only [lookupAssoc, List.find?_cons, hbeq] at ih ⊢
        exact ih

/-- The fundamental grouping property of the `readFormFold` loop: after a
successful fold, the list stored under any field name is what was already
there followed by the file headers of the parts bearing that name, in part
order. -/
theorem readFormFold_file_getD (mm : Int) :
    ∀ (parts : List PartM) (mvb : Int) (form0 form : FormM),
    readFormFold mm parts mvb form0 = some form → ∀ k,
    (lookupAssoc form.file k).getD [] =
      (lookupAssoc form0.file k).getD [] ++
        (parts.filter (isFilePartNamed k)).map (mkFileHeader mm) := by
  intro parts
  induction parts with
  | nil =>
    intro mvb form0 form h k
    simp only [readFormFold, Option.some.injEq] at h
    subst h
    simp [List.filter_nil]
  | cons p ps ih =>
    intro mvb form0 form h k
    unfold readFormFold at h
    by_cases hname : formName p = []
    · rw [if_pos hname] at h
      have hpred : isFilePartNamed k p = false := by
        simp [isFilePartNamed, hname]
      have hfil : (p :: ps).filter (isFilePartNamed k) = ps.filter (isFilePartNamed k) := by
        simp [List.filter_cons, hpred]
      rw [hfil]
      exact ih mvb form0 form h k
    · rw [if_neg hname] at h
      by_cases hfile : fileName p = []
      · rw [if_pos hfile] at h
        have hpred : isFilePartNamed k p = false := by
          simp [isFilePartNamed, hfile]
        have hfil : (p :: ps).filter (isFilePartNamed k) = ps.filter (isFilePartNamed k) := by
          simp [List.filter_cons, hpred]
        rw [hfil]
        dsimp only at h
        split at h
        · exact absurd h (by simp)
        · exact ih _ _ form h k
      · rw [if_neg hfile] at h
        have hstep := ih _ _ form h k
        rw [hstep]
        simp only [lookupAssoc_appendAssoc]
        by_cases hk : k = formName p
        · have hpred : isFilePartNamed k p = true := by
            simp only [isFilePartNamed, Bool.and_eq_true, bne_iff_ne, beq_iff_eq]
            exact ⟨⟨hname, hfile⟩, hk.symm⟩
          have hfil : (p :: ps).filter (isFilePartNamed k) = p :: ps.filter (isFilePartNamed k) := by
            simp [List.filter_cons, hpred]
          rw [hfil, if_pos hk, List.map_cons]
          simp
        · have hpred : isFilePartNamed k p = false := by
            simp only [isFilePartNamed, Bool.and_eq_true, Bool.and_eq_false_iff]
            right
            simp only [beq_eq_false_iff_ne]
            exact fun hc => hk hc.symm
          have hfil : (p :: ps).filter (isFilePartNamed k) = ps.filter (isFilePartNamed k) := by
            simp [List.filter_cons, hpred]
          rw [hfil, if_neg hk]

/-- After a successful fold, a field name is present in the file map iff
some stored part bears it. -/
theorem readFormFold_file_none (mm : Int) :
    ∀ (parts : List PartM) (mvb : Int) (form0 form : FormM),
    readFormFold mm parts mvb form0 = some form → ∀ k,
    (lookupAssoc form.file k = none ↔
      (lookupAssoc form0.file k = none ∧ parts.filter (isFilePartNamed k) = [])) := by
  intro parts
  induction parts with
  | nil =>
    intro mvb form0 form h k
    simp only [readFormFold, Option.some.injEq] at h
    subst h
    simp
  | cons p ps ih =>
    intro mvb form0 form h k
    unfold readFormFold at h
    by_cases hname : formName p = []
    · rw [if_pos hname] at h
      have hpred : isFilePartNamed k p = false := by
        simp [isFilePartNamed, hname]
      have hfil : (p :: ps).filter (isFilePartNamed k) = ps.filter (isFilePartNamed k) := by
        simp [List.filter_cons, hpred]
      rw [hfil]
      exact ih mvb form0 form h k
    · rw [if_neg hname] at h
      by_cases hfile : fileName p = []
      · rw [if_pos hfile] at h
        have hpred : isFilePartNamed k p = false := by
          simp [isFilePartNamed, hfile]
        have hfil : (p :: ps).filter (isFilePartNamed k) = ps.filter (isFilePartNamed k) := by
          simp [List.filter_cons, hpred]
        rw [hfil]
        dsimp only at h
        split at h
        · exact absurd h (by simp)
        · exact ih _ _ form h k
      · rw [if_neg hfile] at h
        have hstep := ih _ _ form h k
        rw [hstep, lookupAssoc_appendAssoc]
        by_cases hk : k = formName p
        · have hpred : isFilePartNamed k p = true := by
            simp only [isFilePartNamed, Bool.and_eq_true, bne_iff_ne, beq_iff_eq]
            exact ⟨⟨hname, hfile⟩, hk.symm⟩
          have hfil : (p :: ps).filter (isFilePartNamed k) = p :: ps.filter (isFilePartNamed k) := by
            simp [List.filter_cons, hpred]
          rw [hfil, if_pos hk]
          simp
        · have hpred : isFilePartNamed k p = false := by
            simp only [isFilePartNamed, Bool.and_eq_true, Bool.and_eq_false_iff]
            right
            simp only [beq_eq_false_iff_ne]
            exact fun hc => hk hc.symm
          have hfil : (p :: ps).filter (isFilePartNamed k) = ps.filter (isFilePartNamed k) := by
            simp [List.filter_cons, hpred]
          rw [hfil, if_neg hk]

/-- Specialisation to the empty initial form used by `readForm`: the map
entry for a field name is exactly the file headers of the parts bearing it,
`none` when there are none. -/
theorem readForm_file_lookup (mm : Int) (parts : List PartM) (mvb : Int)
    (form : FormM) (h : readFormFold mm parts mvb ⟨[], []⟩ = some form)
    (k : GoStr) :
    lookupAssoc form.file k =
      match parts.filter (isFilePartNamed k) with
      | [] => none
      | l => some (l.map (mkFileHeader mm)) := by
  have hgetd := readFormFold_file_getD mm parts mvb ⟨[], []⟩ form h k
  have hnone := readFormFold_file_none mm parts mvb ⟨[], []⟩ form h k
  have hempty : lookupAssoc (⟨[], []⟩ : FormM).file k = none := rfl
  rw [hempty] at hgetd hnone
  simp only [Option.getD_none, List.nil_append, true_and] at hgetd hnone
  cases hfilter : parts.filter (isFilePartNamed k) with
  | nil =>
    rw [hfilter] at hnone
    exact hnone.mpr rfl
  | cons q qs =>
    rw [hfilter] at hgetd hnone
    cases hlook : lookupAssoc form.file k with
    | none => exact absurd (hnone.mp hlook) (by simp)
    | some l =>
      rw [hlook] at hgetd
      simp only [Option.getD_some] at hgetd
      rw [hgetd]

/-- A successful `getHeadersForm` decomposes into its pipeline pieces: a
parsed media type, a parsed part list, and a successful fold. -/
theorem getHeadersForm_ok_decompose (req : APIGatewayProxyRequest) (m : Int)
    (form : FormM) (h : getHeadersForm req m = .ok form) :
    ∃ mt prms parts,
      parseMediaType (headerGet req.headers (bytes "Content-Type")) = some (mt, prms) ∧
      readAllParts (paramGet prms (bytes "boundary")) (splitLines req.body) = some parts ∧
      readFormFold m parts (initialMaxValueBytes m) ⟨[], []⟩ = some form := by
  unfold getHeadersForm at h
  dsimp only at h
  split at h
  · exact absurd h (by simp)
  split at h
  · exact absurd h (by simp)
  next mt prms hpm =>
    split at h
    · exact absurd h (by simp)
    next hb =>
      split at h
      · exact absurd h (by simp)
      next form1 hrf =>
        simp only [Except.ok.injEq] at h
        subst h
        unfold readForm at hrf
        split at hrf
        · exact absurd hrf (by simp)
        next parts hparts =>
          exact ⟨mt, prms, parts, hpm, hparts, hrf⟩

/-- Unfolding `GetHeaders` on a successful form. -/
theorem GetHeaders_ok (iter : List GoStr) (req : APIGatewayProxyRequest)
    (m : Int) (form : FormM) (h : getHeadersForm req m = .ok form) :
    GetHeaders iter req m =
      .ok (iter.filterMap fun k => (lookupAssoc form.file k).bind List.head?) := by
  unfold GetHeaders
  rw [h]

/-- Absent keys of an association list are exactly those outside the key
column. -/
theorem lookupAssoc_eq_none_iff {α : Type} (m : List (GoStr × α)) (k : GoStr) :
    lookupAssoc m k = none ↔ k ∉ m.map Prod.fst := by
  unfold lookupAssoc
  cases hf : m.find? (fun e => e.1 == k) with
  | some e => simp only [List.mem_map]
              constructor
              · intro hc
                exact absurd hc (by simp)
              · intro hc
                have := List.find?_some hf
                have hmem := List.mem_of_find?_eq_some hf
                exact absurd ⟨e, hmem, beq_iff_eq.mp this⟩ hc
  | none => simp only [List.find?_eq_none] at hf
            simp only [List.mem_map, true_iff]
            intro ⟨e, hmem, hek⟩
            exact hf e hmem (beq_iff_eq.mpr hek)

/-- `filterMap` keeps the length when the function is total on the list. -/
theorem length_filterMap_of_isSome {α β : Type} :
    ∀ (l : List α) (f : α → Option β), (∀ x ∈ l, (f x).isSome = true) →
    (l.filterMap f).length = l.length := by
  intro l f
  induction l with
  | nil => intro _; rfl
  | cons x xs ih =>
    intro hall
    cases hx : f x with
    | none => exact absurd (hall x (List.mem_cons_self x xs)) (by simp [hx])
    | some b =>
      simp only [List.filterMap_cons, hx, List.length_cons]
      rw [ih (fun y hy => hall y (List.mem_cons_of_mem x hy))]

/-! ## C6 -/

/-- C6: whenever decoding succeeds, each field name visited by the map
iteration contributes exactly the FIRST file part bearing that name in the
body's part order — all later parts that share the field name are dropped
(`form.File[name][0]`). -/
theorem c6_only_first_part_per_field_name_retained (iter : List GoStr)
    (req : APIGatewayProxyRequest) (m : Int) (form : FormM)
    (h : getHeadersForm req m = .ok form) :
    ∃ mt prms parts,
      parseMediaType (headerGet req.headers (bytes "Content-Type")) = some (mt, prms) ∧
      readAllParts (paramGet prms (bytes "boundary")) (splitLines req.body) = some parts ∧
      GetHeaders iter req m = .ok (iter.filterMap fun k =>
        ((parts.filter (isFilePartNamed k)).head?).map (mkFileHeader m)) := by
  obtain ⟨mt, prms, parts, hpm, hparts, hfold⟩ := getHeadersForm_ok_decompose req m form h
  refine ⟨mt, prms, parts, hpm, hparts, ?_⟩
  rw [GetHeaders_ok iter req m form h]
  congr 1
  apply List.filterMap_congr
  intro k _
  rw [readForm_file_lookup m parts _ form hfold k]
  cases hf : parts.filter (isFilePartNamed k) with
  | nil => rfl
  | cons q qs => rfl

/-- A body in which two file parts share the field name `dup`. -/
def dupBody : GoStr :=
  bytes "--B\r\nContent-Disposition: form-data; name=\"dup\"; filename=\"one.txt\"\r\n\r\n1\r\n--B\r\nContent-Disposition: form-data; name=\"dup\"; filename=\"two.txt\"\r\n\r\n2\r\n--B--\r\n"

/-- The request carrying `dupBody`. -/
def dupReq : APIGatewayProxyRequest :=
  { headers := [(bytes "Content-Type", bytes "multipart/form-data; boundary=B")],
    body := dupBody, isBase64Encoded := false }

/-- The first `dup` part of `dupBody`. -/
def dupPartOne : PartM :=
  { headers := [(bytes "Content-Disposition",
                 bytes "form-data; name=\"dup\"; filename=\"one.txt\"")],
    content := bytes "1" }

/-- The second `dup` part of `dupBody`. -/
def dupPartTwo : PartM :=
  { headers := [(bytes "Content-Disposition",
                 bytes "form-data; name=\"dup\"; filename=\"two.txt\"")],
    content := bytes "2" }

/-- Witness for C6: on `dupBody` the decode returns only the header of the
first `dup` part (`one.txt`); the `two.txt` part is silently dropped. -/
theorem c6_only_first_part_per_field_name_retained_witness :
    (∃ mt prms parts,
      parseMediaType (headerGet dupReq.headers (bytes "Content-Type")) = some (mt, prms) ∧
      readAllParts (paramGet prms (bytes "boundary")) (splitLines dupReq.body) = some parts ∧
      GetHeaders [bytes "dup"] dupReq 100 = .ok ([bytes "dup"].filterMap fun k =>
        ((parts.filter (isFilePartNamed k)).head?).map (mkFileHeader 100))) ∧
    GetHeaders [bytes "dup"] dupReq 100 = .ok [mkFileHeader 100 dupPartOne] ∧
    (mkFileHeader 100 dupPartOne).filename = bytes "one.txt" := by
  refine ⟨c6_only_first_part_per_field_name_retained [bytes "dup"] dupReq 100
    ⟨[], [(bytes "dup", [mkFileHeader 100 dupPartOne, mkFileHeader 100 dupPartTwo])]⟩
    (by decide), by decide, by decide⟩

/-! ## C5 -/

/-- A body containing two distinct file fields, `alpha` then `beta`. -/
def twoFieldBody : GoStr :=
  bytes "--B\r\nContent-Disposition: form-data; name=\"alpha\"; filename=\"a.txt\"\r\n\r\nAAA\r\n--B\r\nContent-Disposition: form-data; name=\"beta\"; filename=\"b.txt\"\r\n\r\nBB\r\n--B--\r\n"

/-- The request carrying `twoFieldBody`. -/
def twoFieldReq : APIGatewayProxyRequest :=
  { headers := [(bytes "Content-Type", bytes "multipart/form-data; boundary=B")],
    body := twoFieldBody, isBase64Encoded := false }

/-- The `alpha` part of `twoFieldBody`. -/
def partAlpha : PartM :=
  { headers := [(bytes "Content-Disposition",
                 bytes "form-data; name=\"alpha\"; filename=\"a.txt\"")],
    content := bytes "AAA" }

/-- The `beta` part of `twoFieldBody`. -/
def partBeta : PartM :=
  { headers := [(bytes "Content-Disposition",
                 bytes "form-data; name=\"beta\"; filename=\"b.txt\"")],
    content := bytes "BB" }

/-- The form built from `twoFieldBody`, keys in body order. -/
def twoFieldForm : FormM :=
  { value := [],
    file := [(bytes "alpha", [mkFileHeader 100 partAlpha]),
             (bytes "beta", [mkFileHeader 100 partBeta])] }

/-- C5 counterexample: the fields appear in the body in the order `alpha`,
`beta`, but the output order follows the Go map iteration order, which is
unspecified — under the legal iteration order `beta, alpha` (a permutation
of the form's keys) the decode succeeds and returns the `b.txt` entry before
the `a.txt` entry, so the returned sequence is NOT in body order. -/
theorem c5_counterexample_map_iteration_order_not_body_order :
    readAllParts (bytes "B") (splitLines twoFieldBody) = some [partAlpha, partBeta] ∧
    formName partAlpha = bytes "alpha" ∧
    formName partBeta = bytes "beta" ∧
    getHeadersForm twoFieldReq 100 = .ok twoFieldForm ∧
    twoFieldForm.file.map Prod.fst = [bytes "alpha", bytes "beta"] ∧
    List.Perm [bytes "beta", bytes "alpha"] [bytes "alpha", bytes "beta"] ∧
    GetHeaders [bytes "beta", bytes "alpha"] twoFieldReq 100 =
      .ok [mkFileHeader 100 partBeta, mkFileHeader 100 partAlpha] ∧
    (mkFileHeader 100 partBeta).filename = bytes "b.txt" ∧
    (mkFileHeader 100 partAlpha).filename = bytes "a.txt" ∧
    mkFileHeader 100 partBeta ≠ mkFileHeader 100 partAlpha := by
  refine ⟨by decide, by decide, by decide, by decide, by decide,
    List.Perm.swap (bytes "alpha") (bytes "beta") [], by decide, by decide,
    by decide, by decide⟩

/-- C5 as amended: a successful decode returns exactly one entry per
uploaded file field name found in the body — the entry count equals the
number of field names, each visited key contributing `form.File[name][0]` —
but in the (unspecified) map iteration order rather than body order. -/
theorem c5_amended_one_entry_per_field_name (iter : List GoStr)
    (req : APIGatewayProxyRequest) (m : Int) (form : FormM)
    (h : getHeadersForm req m = .ok form)
    (hperm : iter.Perm (form.file.map Prod.fst)) :
    ∃ fs, GetHeaders iter req m = .ok fs ∧
      fs = iter.filterMap (fun k => (lookupAssoc form.file k).bind List.head?) ∧
      fs.length = form.file.length := by
  obtain ⟨mt, prms, parts, hpm, hparts, hfold⟩ := getHeadersForm_ok_decompose req m form h
  refine ⟨iter.filterMap (fun k => (lookupAssoc form.file k).bind List.head?),
    GetHeaders_ok iter req m form h, rfl, ?_⟩
  have hall : ∀ k ∈ iter, ((lookupAssoc form.file k).bind List.head?).isSome = true := by
    intro k hk
    have hkeys : k ∈ form.file.map Prod.fst := hperm.mem_iff.mp hk
    have hlook : lookupAssoc form.file k ≠ none := by
      intro hc
      exact (lookupAssoc_eq_none_iff form.file k).mp hc hkeys
    rw [readForm_file_lookup m parts _ form hfold k] at hlook ⊢
    cases hf : parts.filter (isFilePartNamed k) with
    | nil => rw [hf] at hlook; exact absurd rfl hlook
    | cons q qs => rfl
  rw [length_filterMap_of_isSome iter _ hall, hperm.length_eq, List.length_map]

/-- Witness for C5 as amended, at the two-field request with the reversed
iteration order. -/
theorem c5_amended_one_entry_per_field_name_witness :
    ∃ fs, GetHeaders [bytes "beta", bytes "alpha"] twoFieldReq 100 = .ok fs ∧
      fs = [bytes "beta", bytes "alpha"].filterMap
        (fun k => (lookupAssoc twoFieldForm.file k).bind List.head?) ∧
      fs.length = twoFieldForm.file.length := by
  exact c5_amended_one_entry_per_field_name [bytes "beta", bytes "alpha"]
    twoFieldReq 100 twoFieldForm (by decide)
    (List.Perm.swap (bytes "alpha") (bytes "beta") [])

end LambdaS3
